import Mathlib

/-!
Shallow embedding of `alibabacloud-apsaradb-for-mongodb-mcp-server`
(`server.py` and `utils.py`) and proofs about its documented behaviour.

Python values that can appear as a `collStats` payload (or a field inside
one) are modelled by `Doc`; Python exceptions relevant to the code paths
under study are modelled by `PyErr`.  Fallible Python code is embedded as
`Except PyErr`-valued functions, written with explicit `match` so that the
control flow of the source is visible term by term.
-/

namespace Mongo

/-- The Python exception classes that the embedded code can raise or catch:
`KeyError`, `TypeError`, `pymongo.errors.OperationFailure`,
`pymongo.errors.ConnectionFailure`, `ValueError`, and a catch-all for any
other exception class. -/
inductive PyErr where
  | keyError
  | typeError
  | operationFailure
  | connectionFailure
  | valueError
  | otherError
deriving DecidableEq, Repr

/-- A Python value inside a statistics payload: an int, a str, or a dict
with string keys (the shapes relevant to the `collStats` document). -/
inductive Doc where
  | int (k : Int)
  | str (s : String)
  | obj (fields : List (String × Doc))
deriving Repr

/-- Python subscription `d[key]` with a string key: on a dict it returns the
value or raises `KeyError`; on an int or str it raises `TypeError`
(non-mapping values are not subscriptable by a string key). -/
def getitem (d : Doc) (key : String) : Except PyErr Doc :=
  match d with
  | .obj fields =>
      match fields.lookup key with
      | some v => .ok v
      | none => .error .keyError
  | _ => .error .typeError

/-- `stats["wiredTiger"]["block-manager"]["file bytes available for reuse"]`
(server.py line 64). -/
def extractReusable (stats : Doc) : Except PyErr Doc :=
  match getitem stats "wiredTiger" with
  | .error e => .error e
  | .ok wt =>
      match getitem wt "block-manager" with
      | .error e => .error e
      | .ok bm => getitem bm "file bytes available for reuse"

/-- One element of the `results` list built by
`get_top_reusable_space_collections`:
`{"database": ..., "collection": ..., "reusable_bytes": ...}`. -/
structure Entry where
  database : String
  collection : String
  reusable_bytes : Doc
deriving Repr

/-- A collection as seen by the ranker: its name together with the outcome
of `db.command("collStats", coll_name)` — either a payload document or the
exception that call raises. -/
structure Collection where
  name : String
  stats : Except PyErr Doc

/-- A database: its name and the collections `db.list_collection_names()`
enumerates, in enumeration order. -/
structure Database where
  name : String
  colls : List Collection

/-- The server a connection string resolves to: either unreachable (the
`MongoClient` acquisition raises `ConnectionFailure` with the given cause)
or reachable with the given databases in enumeration order. -/
inductive ServerState where
  | unreachable (cause : String)
  | reachable (dbs : List Database)

/-- Python `<` on the sort keys: int/int and str/str compare, any other
pair of shapes raises `TypeError` (Python 3 forbids cross-type order
comparison, and dicts are unordered). -/
def pyLt : Doc → Doc → Except PyErr Bool
  | .int a, .int b => .ok (decide (a < b))
  | .str a, .str b => .ok (decide (a < b))
  | _, _ => .error .typeError

/-- Stable descending insertion used to model `list.sort(key=..., reverse=True)`:
`x` is placed before the first element `y` with `y < x`, hence after every
earlier element whose key equals `x`'s (CPython's sort is stable, also with
`reverse=True`).  A comparison between incomparable keys propagates the
`TypeError` exactly as in CPython. -/
def insertDesc (x : Entry) : List Entry → Except PyErr (List Entry)
  | [] => .ok [x]
  | y :: ys =>
      match pyLt y.reusable_bytes x.reusable_bytes with
      | .error e => .error e
      | .ok true => .ok (x :: y :: ys)
      | .ok false =>
          match insertDesc x ys with
          | .error e => .error e
          | .ok r => .ok (y :: r)

/-- Fold the entries of `l` into the sorted accumulator `acc`. -/
def sortDescAux (acc : List Entry) : List Entry → Except PyErr (List Entry)
  | [] => .ok acc
  | x :: xs =>
      match insertDesc x acc with
      | .error e => .error e
      | .ok acc2 => sortDescAux acc2 xs

/-- `results.sort(key=lambda x: x["reusable_bytes"], reverse=True)`
(server.py line 71): stable descending sort, raising `TypeError` when two
keys of different shapes are compared. -/
def sortDesc (l : List Entry) : Except PyErr (List Entry) :=
  sortDescAux [] l

/-- The value `stats["wiredTiger"]["block-manager"]["file bytes available for reuse"]`
for a collection, threading the failure of the `collStats` call itself. -/
def statsValue (c : Collection) : Except PyErr Doc :=
  match c.stats with
  | .error e => .error e
  | .ok stats => extractReusable stats

/-- The exception classes caught by the per-collection `except` clauses
(server.py lines 66-69): `errors.OperationFailure` and `KeyError`. -/
def caught (e : PyErr) : Bool :=
  e == .operationFailure || e == .keyError

/-- The body of the per-collection loop iteration (server.py lines 62-69):
append the entry on success, swallow a caught exception (after logging a
warning), propagate any other exception. -/
def processColl (dbName : String) (c : Collection) (acc : List Entry) :
    Except PyErr (List Entry) :=
  match statsValue c with
  | .ok v => .ok (acc ++ [⟨dbName, c.name, v⟩])
  | .error e => if caught e then .ok acc else .error e

/-- The inner loop over `db.list_collection_names()`. -/
def collectColls (dbName : String) (acc : List Entry) :
    List Collection → Except PyErr (List Entry)
  | [] => .ok acc
  | c :: cs =>
      match processColl dbName c acc with
      | .error e => .error e
      | .ok acc2 => collectColls dbName acc2 cs

/-- The outer loop over `client.list_database_names()`. -/
def collectDbs (acc : List Entry) : List Database → Except PyErr (List Entry)
  | [] => .ok acc
  | d :: ds =>
      match collectColls d.name acc d.colls with
      | .error e => .error e
      | .ok acc2 => collectDbs acc2 ds

/-- The `results` list as built by the double loop (server.py lines 58-69). -/
def candidatesOf (dbs : List Database) : Except PyErr (List Entry) :=
  collectDbs [] dbs

/-- Python slice `l[:n]` for an integer `n`: a non-negative `n` keeps the
first `n` elements, a negative `n` drops the last `|n|` elements. -/
def pyTakeSlice {α : Type} (l : List α) (n : Int) : List α :=
  if 0 ≤ n then l.take n.toNat else l.take (l.length - n.natAbs)

/-- The two shapes `get_top_reusable_space_collections` can return: the
formatted connection-failure string, or the ranked list of entries. -/
inductive RankResult where
  | failure (msg : String)
  | ranking (entries : List Entry)
deriving Repr

/-- The f-string on server.py line 56. -/
def connectFailureMessage (cause connection_string : String) : String :=
  "Failed to connect to MongoDB: " ++ cause ++ ", connection_string: " ++
    connection_string

/-- `get_top_reusable_space_collections` (server.py lines 40-72) for an
explicit connection string: acquiring a client for an unreachable server is
caught and returned as a failure string; otherwise the double loop builds
`results`, the list is sorted descending by `reusable_bytes`, and the slice
`results[:top_n]` is returned.  Uncaught exceptions (anything but the
per-collection `OperationFailure`/`KeyError`) escape to the caller. -/
def get_top_reusable_space_collections (connection_string : String)
    (server : ServerState) (top_n : Int) : Except PyErr RankResult :=
  match server with
  | .unreachable cause =>
      .ok (.failure (connectFailureMessage cause connection_string))
  | .reachable dbs =>
      match candidatesOf dbs with
      | .error e => .error e
      | .ok results =>
          match sortDesc results with
          | .error e => .error e
          | .ok sorted => .ok (.ranking (pyTakeSlice sorted top_n))

/-- A well-formed `collStats` payload whose reclaimable-space field holds
the given value. -/
def mkStats (v : Doc) : Doc :=
  .obj [("wiredTiger", .obj [("block-manager",
    .obj [("file bytes available for reuse", v)])])]

/-! ## Spec-side reference definitions

These follow the specification's words for the ranking pipeline (enumerate,
extract from each successfully-inspected collection, sort stably descending,
truncate), to be compared with the embedded code above. -/

/-- Whether a value is an integer (the shape the spec's data model gives to
`reusable_bytes`). -/
def docIsInt : Doc → Bool
  | .int _ => true
  | _ => false

/-- The integer key of an entry whose value is an int (0 on other shapes;
only used under an all-int hypothesis). -/
def keyI (e : Entry) : Int :=
  match e.reusable_bytes with
  | .int k => k
  | _ => 0

/-- Whether an entry's value is exactly the integer `k`. -/
def keyIs (k : Int) (e : Entry) : Bool :=
  match e.reusable_bytes with
  | .int j => j == k
  | _ => false

/-- A collection the per-collection fault isolation fully handles: its
extracted value is an integer, or its failure is one of the caught
exception classes. -/
def goodColl (c : Collection) : Bool :=
  match statsValue c with
  | .ok v => docIsInt v
  | .error e => caught e

/-- A server state in which every collection is handled by the
per-collection fault isolation: no uncaught exception can arise. -/
def wellBehaved (dbs : List Database) : Bool :=
  dbs.all (fun d => d.colls.all goodColl)

/-- Spec step 4-5 for one database: the successfully-extracted entries of
its collections, in enumeration order. -/
def specCollCands (dbName : String) (colls : List Collection) : List Entry :=
  colls.filterMap (fun c =>
    match statsValue c with
    | .ok v => some ⟨dbName, c.name, v⟩
    | .error _ => none)

/-- Spec step 2-5: the candidate set over all databases, in enumeration
order of the (database, collection) pairs. -/
def specCandidates : List Database → List Entry
  | [] => []
  | d :: ds => specCollCands d.name d.colls ++ specCandidates ds

/-- Total boolean version of the key comparison (false when the fallible
comparison raises; coincides with `pyLt` on comparable keys). -/
def docLtB (a b : Doc) : Bool :=
  match pyLt a b with
  | .ok t => t
  | .error _ => false

/-- Pure stable descending insertion (the spec's "sort descending, stable
on ties", step 6). -/
def specInsert (x : Entry) : List Entry → List Entry
  | [] => [x]
  | y :: ys =>
      if docLtB y.reusable_bytes x.reusable_bytes then x :: y :: ys
      else y :: specInsert x ys

/-- Pure stable descending insertion sort: the reference sort of the spec. -/
def specSortDesc (l : List Entry) : List Entry :=
  l.foldl (fun acc x => specInsert x acc) []

/-! ## Embedding of `utils.get_mongodb_connection_configuration` -/

/-- The two shapes the configuration singleton can hold (utils.py lines
28-67): the raw connection string, or the five-field parameter dict (cached
only after all five passed the non-falsy check). -/
inductive ConfigVal where
  | connStr (s : String)
  | dict (host port user password database : String)
deriving DecidableEq, Repr

/-- The environment variables the loader reads: `os.getenv` returns `none`
when the variable is unset. -/
structure Env where
  connection_string : Option String
  host : Option String
  port : Option String
  user : Option String
  password : Option String
  database : Option String

/-- Python truthiness of an `os.getenv` result: `None` and the empty string
are falsy. -/
def truthyStr : Option String → Bool
  | none => false
  | some s => !s.isEmpty

/-- Python truthiness of a cached configuration value: a string is truthy
iff nonempty; the cached dict always has five keys, and a nonempty dict is
truthy. -/
def truthyConfig : ConfigVal → Bool
  | .connStr s => !s.isEmpty
  | .dict _ _ _ _ _ => true

/-- The body after the cache check (utils.py lines 28-67): prefer a truthy
`MONGODB_CONNECTION_STRING`; otherwise require the five individual
parameters to be non-falsy, raising `ValueError` when any is missing. -/
def loadConfigFromEnv (env : Env) : Except PyErr ConfigVal :=
  if truthyStr env.connection_string then
    .ok (.connStr (env.connection_string.getD ""))
  else if truthyStr env.host && truthyStr env.port && truthyStr env.user &&
      truthyStr env.password && truthyStr env.database then
    .ok (.dict (env.host.getD "") (env.port.getD "") (env.user.getD "")
      (env.password.getD "") (env.database.getD ""))
  else
    .error .valueError

/-- `get_mongodb_connection_configuration` (utils.py lines 22-67), with the
module-level `global_config` passed and returned explicitly: if the cached
value is truthy it is returned unchanged; otherwise the environment is read
and a successful load is cached. -/
def get_mongodb_connection_configuration (env : Env)
    (global_config : Option ConfigVal) :
    Except PyErr (ConfigVal × Option ConfigVal) :=
  match global_config with
  | some c =>
      if truthyConfig c then .ok (c, some c)
      else
        match loadConfigFromEnv env with
        | .ok v => .ok (v, some v)
        | .error e => .error e
  | none =>
      match loadConfigFromEnv env with
      | .ok v => .ok (v, some v)
      | .error e => .error e

/-! ## Embedding of `server.create_db_instance` -/

/-- The request object built on server.py lines 468-486, with the three
conditionally-set fields as options. -/
structure CreateDBInstanceRequest where
  region_id : String
  zone_id : String
  engine_version : String
  dbinstance_class : String
  dbinstance_storage : Int
  account_password : String
  charge_type : String
  vpc_id : String
  v_switch_id : String
  storage_type : String
  security_iplist : Option String
  period : Option Int
  replication_factor : Option Int

/-- What `create_db_instance` returns when it does not raise: the mapped
API response body, or the formatted failure string from the `except`
clause. -/
inductive CreateOutcome where
  | apiResponse (body : List (String × String))
  | failureMessage (msg : String)

/-- Python truthiness of an optional int parameter: `None` and `0` are
falsy. -/
def truthyInt : Option Int → Bool
  | none => false
  | some k => !(k == 0)

/-- `create_db_instance` (server.py lines 426-493).  The guard
`raise "period is required when charge_type is PrePaid"` raises a plain
string, which Python 3 rejects with
`TypeError: exceptions must derive from BaseException`, before any client
is built; the cloud round-trip `client.create_dbinstance(...)` is abstracted
as the `api` argument, and its failure is translated to the failure
string. -/
def create_db_instance (region_id zone_id engine_version db_instance_class :
      String)
    (db_instance_storage : Int)
    (account_password charge_type vpc_id vswitch_id storage_type : String)
    (security_ip_list : Option String) (period : Option Int)
    (replication_factor : Option Int)
    (api : CreateDBInstanceRequest → Except String (List (String × String))) :
    Except PyErr CreateOutcome :=
  if charge_type == "PrePaid" && !(truthyInt period) then
    .error .typeError
  else
    let req0 : CreateDBInstanceRequest :=
      ⟨region_id, zone_id, engine_version, db_instance_class,
        db_instance_storage, account_password, charge_type, vpc_id,
        vswitch_id, storage_type, none, none, none⟩
    let req1 :=
      if truthyStr security_ip_list then
        { req0 with security_iplist := security_ip_list }
      else req0
    let req2 :=
      if truthyInt period then { req1 with period := period } else req1
    let req3 :=
      if truthyInt replication_factor then
        { req2 with replication_factor := replication_factor }
      else req2
    match api req3 with
    | .ok body => .ok (.apiResponse body)
    | .error e =>
        .ok (.failureMessage ("Failed to create db instance, exception: " ++ e))

/-! ## Embedding of `server.get_audit_log_from_sls` -/

/-- The `region2project` table (server.py lines 80-86). -/
def region2project : List (String × String) :=
  [("cn-hangzhou", "mongo-flink-hz"), ("cn-shanghai", "mongo-flink-sh"),
   ("cn-beijing", "mongo-flink-bj"), ("cn-shenzhen", "mongo-flink-sz"),
   ("cn-zhangjiakou", "mongo-flink-zb")]

/-- The `GetLogsRequest` built on server.py lines 113-119. -/
structure GetLogsRequest where
  from_ : Int
  to_ : Int
  query : String
  offset : Int
  line : Int

/-- What `get_audit_log_from_sls` returns when it does not raise: the
`{"count": ..., "logs": ...}` mapping, or the formatted failure string. -/
inductive AuditLogOutcome where
  | success (count : Nat) (logs : List String)
  | failureMessage (msg : String)

/-- `get_audit_log_from_sls` (server.py lines 90-131).  `parseTimestamp`
abstracts `strptime` + timezone attach + `timestamp()` (a malformed date
raises `ValueError` before the `try` block, uncaught); `getLogs` abstracts
the SLS round-trip.  Inside the `try` block, both an unknown region
(`region2project[region_id]` raising `KeyError`) and a failing round-trip
are caught by `except Exception` and become the failure string. -/
def get_audit_log_from_sls (region_id from_ to_ query : String) (offset : Int)
    (parseTimestamp : String → Option Int)
    (getLogs : String → String → GetLogsRequest → Except String (List String)) :
    Except PyErr AuditLogOutcome :=
  match parseTimestamp from_, parseTimestamp to_ with
  | some start_ts, some end_ts =>
      let req : GetLogsRequest := ⟨start_ts, end_ts, query, offset, 50⟩
      let body :=
        match region2project.lookup region_id with
        | some project => getLogs project "mongo_audit_log" req
        | none => .error ("KeyError: " ++ region_id)
      match body with
      | .ok logs => .ok (.success logs.length logs)
      | .error e => .ok (.failureMessage ("Failed to get logs from sls: " ++ e))
  | _, _ => .error .valueError

/-! ## Basic lemmas about the sort -/

/-- An entry list whose values are all integers (the shape the spec's data
model prescribes for `reusable_bytes`). -/
def AllInt (l : List Entry) : Prop :=
  ∀ e ∈ l, ∃ k : Int, e.reusable_bytes = .int k

theorem docIsInt_exists {d : Doc} (h : docIsInt d = true) :
    ∃ k : Int, d = .int k := by
  cases d with
  | int k => exact ⟨k, rfl⟩
  | str s => simp [docIsInt] at h
  | obj f => simp [docIsInt] at h

theorem pyLt_asymm {a b : Doc} (h : pyLt a b = .ok true) :
    pyLt b a = .ok false := by
  cases a <;> cases b <;> simp [pyLt] at h ⊢
  · omega
  · exact le_of_lt h

theorem specInsert_mem {x z : Entry} {l : List Entry} :
    z ∈ specInsert x l ↔ z = x ∨ z ∈ l := by
  induction l with
  | nil => simp [specInsert]
  | cons y ys ih =>
      by_cases h : docLtB y.reusable_bytes x.reusable_bytes <;>
        (simp [specInsert, h, ih]; try tauto)

theorem specInsert_length (x : Entry) (l : List Entry) :
    (specInsert x l).length = l.length + 1 := by
  induction l with
  | nil => rfl
  | cons y ys ih =>
      by_cases h : docLtB y.reusable_bytes x.reusable_bytes <;>
        simp [specInsert, h, ih]

theorem specSortDesc_length (l : List Entry) :
    (specSortDesc l).length = l.length := by
  suffices h : ∀ acc : List Entry,
      (l.foldl (fun a x => specInsert x a) acc).length = acc.length + l.length by
    simpa using h []
  induction l with
  | nil => intro acc; simp
  | cons x xs ih =>
      intro acc
      simp [List.foldl_cons, ih, specInsert_length]
      omega

theorem specSortDesc_mem {z : Entry} {l : List Entry} :
    z ∈ specSortDesc l ↔ z ∈ l := by
  suffices h : ∀ acc : List Entry,
      z ∈ l.foldl (fun a x => specInsert x a) acc ↔ z ∈ acc ∨ z ∈ l by
    simpa [specSortDesc] using h []
  induction l with
  | nil => intro acc; simp
  | cons x xs ih =>
      intro acc
      simp [List.foldl_cons, ih, specInsert_mem]
      tauto

theorem insertDesc_spec {x : Entry} {acc : List Entry}
    (hx : ∃ k : Int, x.reusable_bytes = .int k) (hacc : AllInt acc) :
    insertDesc x acc = .ok (specInsert x acc) := by
  induction acc with
  | nil => rfl
  | cons y ys ih =>
      obtain ⟨kx, hkx⟩ := hx
      obtain ⟨ky, hky⟩ := hacc y (List.mem_cons_self y ys)
      have hys : AllInt ys := fun e he => hacc e (List.mem_cons_of_mem _ he)
      by_cases hlt : ky < kx <;>
        simp [insertDesc, specInsert, docLtB, pyLt, hkx, hky, hlt, ih hys]

theorem specInsert_allInt {x : Entry} {l : List Entry}
    (hx : ∃ k : Int, x.reusable_bytes = .int k) (hl : AllInt l) :
    AllInt (specInsert x l) := by
  intro e he
  rcases specInsert_mem.1 he with h | h
  · exact h ▸ hx
  · exact hl e h

theorem sortDescAux_spec {l : List Entry} (hl : AllInt l) :
    ∀ {acc : List Entry}, AllInt acc →
      sortDescAux acc l = .ok (l.foldl (fun a x => specInsert x a) acc) := by
  induction l with
  | nil => intro acc _; rfl
  | cons x xs ih =>
      intro acc hacc
      have hx := hl x (List.mem_cons_self x xs)
      have hxs : AllInt xs := fun e he => hl e (List.mem_cons_of_mem _ he)
      simp [sortDescAux, insertDesc_spec hx hacc,
        ih hxs (specInsert_allInt hx hacc)]

/-- Under the spec's data model (integer metrics), the code's fallible sort
succeeds and computes exactly the spec's stable descending sort. -/
theorem sortDesc_spec {l : List Entry} (hl : AllInt l) :
    sortDesc l = .ok (specSortDesc l) :=
  sortDescAux_spec hl (fun e he => absurd he (List.not_mem_nil e))

/-! ## Sortedness of the fallible sort -/

/-- Descending order as the code's comparison sees it: the right key is not
greater than the left key. -/
def Rdesc (a b : Entry) : Prop :=
  pyLt a.reusable_bytes b.reusable_bytes ≠ .ok true

theorem insertDesc_head {x : Entry} {l r : List Entry}
    (h : insertDesc x l = .ok r) : r.head? = some x ∨ r.head? = l.head? := by
  cases l with
  | nil =>
      simp [insertDesc] at h
      subst h; left; rfl
  | cons y ys =>
      rw [insertDesc] at h
      cases hp : pyLt y.reusable_bytes x.reusable_bytes with
      | error e => rw [hp] at h; exact absurd h (by simp)
      | ok b =>
          rw [hp] at h
          cases b with
          | true =>
              simp at h; subst h; left; rfl
          | false =>
              cases hi : insertDesc x ys with
              | error e => rw [hi] at h; exact absurd h (by simp)
              | ok r2 =>
                  rw [hi] at h; simp at h; subst h; right; rfl

theorem insertDesc_chain {x : Entry} {l r : List Entry}
    (hc : List.Chain' Rdesc l) (h : insertDesc x l = .ok r) :
    List.Chain' Rdesc r := by
  induction l generalizing r with
  | nil =>
      simp [insertDesc] at h; subst h; simp
  | cons y ys ih =>
      rw [insertDesc] at h
      cases hp : pyLt y.reusable_bytes x.reusable_bytes with
      | error e => rw [hp] at h; exact absurd h (by simp)
      | ok b =>
          rw [hp] at h
          cases b with
          | true =>
              simp at h; subst h
              refine List.chain'_cons'.2 ⟨?_, hc⟩
              intro z hz
              simp at hz
              subst hz
              show pyLt x.reusable_bytes y.reusable_bytes ≠ .ok true
              rw [pyLt_asymm hp]
              simp
          | false =>
              cases hi : insertDesc x ys with
              | error e => rw [hi] at h; exact absurd h (by simp)
              | ok r2 =>
                  rw [hi] at h; simp at h; subst h
                  refine List.chain'_cons'.2
                    ⟨?_, ih (List.chain'_cons'.1 hc).2 hi⟩
                  intro z hz
                  rcases insertDesc_head hi with h2 | h2
                  · rw [h2] at hz
                    simp at hz; subst hz
                    show pyLt y.reusable_bytes x.reusable_bytes ≠ .ok true
                    rw [hp]; simp
                  · rw [h2] at hz
                    exact (List.chain'_cons'.1 hc).1 z hz

theorem sortDescAux_chain {l : List Entry} :
    ∀ {acc r : List Entry}, List.Chain' Rdesc acc →
      sortDescAux acc l = .ok r → List.Chain' Rdesc r := by
  induction l with
  | nil =>
      intro acc r hacc h
      simp [sortDescAux] at h; subst h; exact hacc
  | cons x xs ih =>
      intro acc r hacc h
      rw [sortDescAux] at h
      cases hi : insertDesc x acc with
      | error e => rw [hi] at h; exact absurd h (by simp)
      | ok acc2 =>
          rw [hi] at h
          exact ih (insertDesc_chain hacc hi) h

/-- Whenever the embedded sort succeeds, its output is descending in the
sense of the code's own comparison. -/
theorem sortDesc_chain {l r : List Entry} (h : sortDesc l = .ok r) :
    List.Chain' Rdesc r :=
  sortDescAux_chain (by simp) h

/-! ## Length preservation of the fallible sort -/

theorem insertDesc_length {x : Entry} {l r : List Entry}
    (h : insertDesc x l = .ok r) : r.length = l.length + 1 := by
  induction l generalizing r with
  | nil => simp [insertDesc] at h; subst h; rfl
  | cons y ys ih =>
      rw [insertDesc] at h
      cases hp : pyLt y.reusable_bytes x.reusable_bytes with
      | error e => rw [hp] at h; exact absurd h (by simp)
      | ok b =>
          rw [hp] at h
          cases b with
          | true => simp at h; subst h; simp
          | false =>
              cases hi : insertDesc x ys with
              | error e => rw [hi] at h; exact absurd h (by simp)
              | ok r2 =>
                  rw [hi] at h; simp at h; subst h
                  simp [ih hi]

theorem sortDescAux_length {l : List Entry} :
    ∀ {acc r : List Entry}, sortDescAux acc l = .ok r →
      r.length = acc.length + l.length := by
  induction l with
  | nil => intro acc r h; simp [sortDescAux] at h; subst h; rfl
  | cons x xs ih =>
      intro acc r h
      rw [sortDescAux] at h
      cases hi : insertDesc x acc with
      | error e => rw [hi] at h; exact absurd h (by simp)
      | ok acc2 =>
          rw [hi] at h
          have := ih h
          rw [this, insertDesc_length hi]
          simp [List.length_cons]
          omega

theorem sortDesc_length {l r : List Entry} (h : sortDesc l = .ok r) :
    r.length = l.length :=
  by simpa using sortDescAux_length h

/-! ## The enumeration loops -/

/-- A collection whose extraction fails with one of the two caught
exception classes is skipped: it leaves the accumulator unchanged. -/
theorem processColl_skip {c : Collection} {nm : String} {acc : List Entry}
    {e : PyErr} (he : statsValue c = .error e) (hc : caught e = true) :
    processColl nm c acc = .ok acc := by
  simp [processColl, he, hc]

/-- A collection whose extraction fails with an uncaught exception aborts
the loop with that exception. -/
theorem processColl_abort {c : Collection} {nm : String} {acc : List Entry}
    {e : PyErr} (he : statsValue c = .error e) (hc : caught e = false) :
    processColl nm c acc = .error e := by
  simp [processColl, he, hc]

theorem collectColls_append (nm : String) (l1 l2 : List Collection) :
    ∀ acc, collectColls nm acc (l1 ++ l2) =
      match collectColls nm acc l1 with
      | .error e => .error e
      | .ok a => collectColls nm a l2 := by
  induction l1 with
  | nil => intro acc; rfl
  | cons c cs ih =>
      intro acc
      rw [List.cons_append, collectColls, collectColls]
      cases hp : processColl nm c acc with
      | error e => rfl
      | ok acc2 => exact ih acc2

theorem collectDbs_append (l1 l2 : List Database) :
    ∀ acc, collectDbs acc (l1 ++ l2) =
      match collectDbs acc l1 with
      | .error e => .error e
      | .ok a => collectDbs a l2 := by
  induction l1 with
  | nil => intro acc; rfl
  | cons d ds ih =>
      intro acc
      rw [List.cons_append, collectDbs, collectDbs]
      cases hp : collectColls d.name acc d.colls with
      | error e => rfl
      | ok acc2 => exact ih acc2

/-- Over fully-handled collections the inner loop cannot fail, and it
appends exactly the spec's successfully-extracted entries. -/
theorem collectColls_good {nm : String} {colls : List Collection}
    (h : ∀ c ∈ colls, goodColl c = true) :
    ∀ acc, collectColls nm acc colls = .ok (acc ++ specCollCands nm colls) := by
  induction colls with
  | nil => intro acc; simp [collectColls, specCollCands]
  | cons c cs ih =>
      intro acc
      have hcg := h c (List.mem_cons_self c cs)
      have hcs : ∀ c2 ∈ cs, goodColl c2 = true :=
        fun c2 hc2 => h c2 (List.mem_cons_of_mem _ hc2)
      rw [collectColls]
      cases hs : statsValue c with
      | ok v =>
          rw [show processColl nm c acc = .ok (acc ++ [⟨nm, c.name, v⟩]) by
            simp [processColl, hs]]
          show collectColls nm (acc ++ [⟨nm, c.name, v⟩]) cs = _
          rw [ih hcs]
          simp [specCollCands, hs]
      | error e =>
          have hcaught : caught e = true := by
            rw [goodColl, hs] at hcg; exact hcg
          rw [processColl_skip hs hcaught]
          show collectColls nm acc cs = _
          rw [ih hcs]
          simp [specCollCands, hs]

/-- Over fully-handled databases the outer loop cannot fail, and it appends
exactly the spec's candidate set. -/
theorem collectDbs_good {dbs : List Database}
    (h : ∀ d ∈ dbs, ∀ c ∈ d.colls, goodColl c = true) :
    ∀ acc, collectDbs acc dbs = .ok (acc ++ specCandidates dbs) := by
  induction dbs with
  | nil => intro acc; simp [collectDbs, specCandidates]
  | cons d ds ih =>
      intro acc
      have hd := h d (List.mem_cons_self d ds)
      have hds : ∀ d2 ∈ ds, ∀ c ∈ d2.colls, goodColl c = true :=
        fun d2 hd2 => h d2 (List.mem_cons_of_mem _ hd2)
      rw [collectDbs, collectColls_good hd]
      show collectDbs (acc ++ specCollCands d.name d.colls) ds = _
      rw [ih hds]
      simp [specCandidates]

/-- In a well-behaved server state the double loop computes exactly the
spec's candidate set. -/
theorem candidatesOf_wellBehaved {dbs : List Database}
    (h : wellBehaved dbs = true) :
    candidatesOf dbs = .ok (specCandidates dbs) := by
  have h2 : ∀ d ∈ dbs, ∀ c ∈ d.colls, goodColl c = true := by
    intro d hd c hc
    rw [wellBehaved, List.all_eq_true] at h
    have := h d hd
    rw [List.all_eq_true] at this
    exact this c hc
  simpa using collectDbs_good h2 []

theorem specCollCands_allInt {nm : String} {colls : List Collection}
    (h : ∀ c ∈ colls, goodColl c = true) :
    AllInt (specCollCands nm colls) := by
  intro e he
  rw [specCollCands, List.mem_filterMap] at he
  obtain ⟨c, hc, hmatch⟩ := he
  have := h c hc
  rw [goodColl] at this
  cases hs : statsValue c with
  | ok v =>
      rw [hs] at this hmatch
      simp at hmatch
      obtain ⟨k, hk⟩ := docIsInt_exists this
      exact ⟨k, by rw [← hmatch]; exact hk⟩
  | error e2 => rw [hs] at hmatch; simp at hmatch

/-! ## Stability of the sort -/

/-- Descending sortedness on integer keys (pairwise form). -/
def SortedI (l : List Entry) : Prop :=
  List.Pairwise (fun a b => keyI b ≤ keyI a) l

theorem keyI_int {e : Entry} {k : Int} (h : e.reusable_bytes = .int k) :
    keyI e = k := by
  simp [keyI, h]

theorem keyIs_false_of_lt {e : Entry} {k kz : Int}
    (hz : e.reusable_bytes = .int kz) (hlt : kz < k) : keyIs k e = false := by
  simp [keyIs, hz]
  omega

theorem specInsert_sorted {x : Entry} {kx : Int}
    (hx : x.reusable_bytes = .int kx) {l : List Entry} (hl : AllInt l)
    (hs : SortedI l) : SortedI (specInsert x l) := by
  induction l with
  | nil => simp [specInsert, SortedI]
  | cons y ys ih =>
      obtain ⟨ky, hky⟩ := hl y (List.mem_cons_self y ys)
      have hys : AllInt ys := fun e he => hl e (List.mem_cons_of_mem _ he)
      have hhead : ∀ z ∈ ys, keyI z ≤ keyI y := (List.pairwise_cons.1 hs).1
      have hsys : SortedI ys := (List.pairwise_cons.1 hs).2
      rw [specInsert]
      by_cases hlt : ky < kx
      · rw [if_pos (by simp [docLtB, pyLt, hky, hx, hlt])]
        refine List.pairwise_cons.2 ⟨?_, hs⟩
        intro z hz
        rcases List.mem_cons.1 hz with rfl | hz2
        · rw [keyI_int hky, keyI_int hx]; omega
        · have := hhead z hz2
          rw [keyI_int hky] at this
          rw [keyI_int hx]
          omega
      · rw [if_neg (by simp [docLtB, pyLt, hky, hx, hlt])]
        refine List.pairwise_cons.2 ⟨?_, ih hys hsys⟩
        intro z hz
        rcases specInsert_mem.1 hz with rfl | hz2
        · rw [keyI_int hky, keyI_int hx]; omega
        · exact hhead z hz2

theorem specInsert_filter {x : Entry} {kx : Int}
    (hx : x.reusable_bytes = .int kx) {l : List Entry} (hl : AllInt l)
    (hs : SortedI l) (k : Int) :
    (specInsert x l).filter (keyIs k)
      = l.filter (keyIs k) ++ if keyIs k x then [x] else [] := by
  induction l with
  | nil =>
      by_cases hk : keyIs k x = true <;> simp [specInsert, List.filter_cons, hk]
  | cons y ys ih =>
      obtain ⟨ky, hky⟩ := hl y (List.mem_cons_self y ys)
      have hys : AllInt ys := fun e he => hl e (List.mem_cons_of_mem _ he)
      have hhead : ∀ z ∈ ys, keyI z ≤ keyI y := (List.pairwise_cons.1 hs).1
      have hsys : SortedI ys := (List.pairwise_cons.1 hs).2
      rw [specInsert]
      by_cases hlt : ky < kx
      · rw [if_pos (by simp [docLtB, pyLt, hky, hx, hlt])]
        by_cases hk : keyIs k x = true
        · have hkxk : kx = k := by simp [keyIs, hx] at hk; omega
          have hnil : (y :: ys).filter (keyIs k) = [] := by
            rw [List.filter_eq_nil_iff]
            intro z hz
            obtain ⟨kz, hkz⟩ := hl z hz
            have hzy : kz ≤ ky := by
              rcases List.mem_cons.1 hz with rfl | hz2
              · rw [keyI_int hkz] at *; simp [hkz] at hky; omega
              · have := hhead z hz2
                rw [keyI_int hkz, keyI_int hky] at this; exact this
            simp [keyIs, hkz]
            omega
          simp [List.filter_cons, hk, hnil]
        · simp only [Bool.not_eq_true] at hk
          simp [List.filter_cons, hk]
      · rw [if_neg (by simp [docLtB, pyLt, hky, hx, hlt])]
        rw [List.filter_cons, List.filter_cons]
        by_cases hy : keyIs k y = true <;>
          simp [hy, ih hys hsys, List.append_assoc]

theorem foldl_specInsert_filter {l : List Entry} (hl : AllInt l) :
    ∀ {acc : List Entry}, AllInt acc → SortedI acc → ∀ k : Int,
      (l.foldl (fun a x => specInsert x a) acc).filter (keyIs k)
        = acc.filter (keyIs k) ++ l.filter (keyIs k) := by
  induction l with
  | nil => intro acc _ _ k; simp
  | cons x xs ih =>
      intro acc hacc hsacc k
      obtain ⟨kx, hkx⟩ := hl x (List.mem_cons_self x xs)
      have hxs : AllInt xs := fun e he => hl e (List.mem_cons_of_mem _ he)
      rw [List.foldl_cons,
        ih hxs (specInsert_allInt ⟨kx, hkx⟩ hacc)
          (specInsert_sorted hkx hacc hsacc) k,
        specInsert_filter hkx hacc hsacc k, List.filter_cons]
      by_cases hx : keyIs k x = true <;> simp [hx, List.append_assoc]

/-- Stability: sorting does not reorder entries that share a key — for
every integer key the key's entries appear in the sorted list exactly in
their enumeration order. -/
theorem specSortDesc_filter {l : List Entry} (hl : AllInt l) (k : Int) :
    (specSortDesc l).filter (keyIs k) = l.filter (keyIs k) := by
  have h := foldl_specInsert_filter hl
    (show AllInt [] from fun e he => absurd he (List.not_mem_nil e))
    (by simp [SortedI]) k
  simpa [specSortDesc] using h

/-- In a well-behaved server state every candidate value is an integer. -/
theorem specCandidates_allInt {dbs : List Database}
    (h : wellBehaved dbs = true) : AllInt (specCandidates dbs) := by
  induction dbs with
  | nil => intro e he; simp [specCandidates] at he
  | cons d ds ih =>
      rw [wellBehaved, List.all_cons, Bool.and_eq_true] at h
      intro e he
      rw [specCandidates, List.mem_append] at he
      rcases he with he | he
      · exact specCollCands_allInt
          (fun c hc => by
            have := h.1
            rw [List.all_eq_true] at this
            exact this c hc) e he
      · exact ih h.2 e he

/-! ## Running the ranker -/

theorem rank_reachable_def (cs : String) (dbs : List Database) (n : Int) :
    get_top_reusable_space_collections cs (.reachable dbs) n =
      (match candidatesOf dbs with
       | .error e => .error e
       | .ok results =>
           match sortDesc results with
           | .error e => .error e
           | .ok sorted => .ok (.ranking (pyTakeSlice sorted n))) := rfl

/-- On a well-behaved server state the call succeeds and computes the
spec's pipeline: enumerate and extract, stable sort descending, slice. -/
theorem rank_wellBehaved {dbs : List Database} (h : wellBehaved dbs = true)
    (cs : String) (n : Int) :
    get_top_reusable_space_collections cs (.reachable dbs) n
      = .ok (.ranking (pyTakeSlice (specSortDesc (specCandidates dbs)) n)) := by
  rw [rank_reachable_def, candidatesOf_wellBehaved h]
  show (match sortDesc (specCandidates dbs) with
        | .error e => (.error e : Except PyErr RankResult)
        | .ok sorted => .ok (.ranking (pyTakeSlice sorted n))) = _
  rw [sortDesc_spec (specCandidates_allInt h)]

theorem foldl_specInsert_sorted :
    ∀ l acc : List Entry, AllInt l → AllInt acc → SortedI acc →
      SortedI (l.foldl (fun a x => specInsert x a) acc) := by
  intro l
  induction l with
  | nil => intro acc _ _ hs; simpa using hs
  | cons x xs ih =>
      intro acc hl hacc hsacc
      obtain ⟨kx, hkx⟩ := hl x (List.mem_cons_self x xs)
      have hxs : AllInt xs := fun e he => hl e (List.mem_cons_of_mem _ he)
      rw [List.foldl_cons]
      exact ih _ hxs (specInsert_allInt ⟨kx, hkx⟩ hacc)
        (specInsert_sorted hkx hacc hsacc)

theorem specSortDesc_sorted {l : List Entry} (hl : AllInt l) :
    SortedI (specSortDesc l) :=
  foldl_specInsert_sorted l [] hl
    (fun e he => absurd he (List.not_mem_nil e)) (by simp [SortedI])

theorem pyTakeSlice_is_take {α : Type} (l : List α) (n : Int) :
    ∃ m : Nat, pyTakeSlice l n = l.take m := by
  rw [pyTakeSlice]
  split
  · exact ⟨n.toNat, rfl⟩
  · exact ⟨l.length - n.natAbs, rfl⟩

/-- Removing a collection that the loop skips (its extraction fails with a
caught exception) does not change the candidates at all. -/
theorem candidatesOf_skip {w : Collection} {e : PyErr}
    (he : statsValue w = .error e) (hc : caught e = true)
    (dpre dpost : List Database) (nm : String)
    (cpre cpost : List Collection) :
    candidatesOf (dpre ++ ⟨nm, cpre ++ w :: cpost⟩ :: dpost)
      = candidatesOf (dpre ++ ⟨nm, cpre ++ cpost⟩ :: dpost) := by
  rw [candidatesOf, candidatesOf, collectDbs_append, collectDbs_append]
  cases hd : collectDbs [] dpre with
  | error e2 => rfl
  | ok acc =>
      show collectDbs acc (⟨nm, cpre ++ w :: cpost⟩ :: dpost)
        = collectDbs acc (⟨nm, cpre ++ cpost⟩ :: dpost)
      rw [collectDbs, collectDbs]
      have hcc : collectColls nm acc (cpre ++ w :: cpost)
          = collectColls nm acc (cpre ++ cpost) := by
        rw [collectColls_append, collectColls_append]
        cases hcp : collectColls nm acc cpre with
        | error e2 => rfl
        | ok acc2 =>
            show collectColls nm acc2 (w :: cpost) = collectColls nm acc2 cpost
            rw [collectColls, processColl_skip he hc]
      rw [hcc]

/-- Removing a skipped collection does not change the overall result. -/
theorem rank_skip {w : Collection} {e : PyErr}
    (he : statsValue w = .error e) (hc : caught e = true)
    (cs nm : String) (dpre dpost : List Database)
    (cpre cpost : List Collection) (n : Int) :
    get_top_reusable_space_collections cs
        (.reachable (dpre ++ ⟨nm, cpre ++ w :: cpost⟩ :: dpost)) n
      = get_top_reusable_space_collections cs
        (.reachable (dpre ++ ⟨nm, cpre ++ cpost⟩ :: dpost)) n := by
  rw [rank_reachable_def, rank_reachable_def,
    candidatesOf_skip he hc dpre dpost nm cpre cpost]

/-- A collection whose extraction fails with an uncaught exception, reached
after only fully-handled collections, aborts the whole enumeration with
that exception. -/
theorem candidatesOf_abort {c : Collection} {e : PyErr}
    (he : statsValue c = .error e) (hc : caught e = false)
    {dpre : List Database}
    (hdpre : ∀ d ∈ dpre, ∀ c2 ∈ d.colls, goodColl c2 = true)
    {cpre : List Collection} (hcpre : ∀ c2 ∈ cpre, goodColl c2 = true)
    (nm : String) (cpost : List Collection) (dpost : List Database) :
    candidatesOf (dpre ++ ⟨nm, cpre ++ c :: cpost⟩ :: dpost) = .error e := by
  rw [candidatesOf, collectDbs_append, collectDbs_good hdpre]
  show collectDbs ([] ++ specCandidates dpre)
      (⟨nm, cpre ++ c :: cpost⟩ :: dpost) = .error e
  rw [collectDbs, collectColls_append, collectColls_good hcpre]
  show (match collectColls nm
          (([] ++ specCandidates dpre) ++ specCollCands nm cpre) (c :: cpost)
        with
        | .error e2 => (.error e2 : Except PyErr (List Entry))
        | .ok acc2 => collectDbs acc2 dpost) = .error e
  rw [collectColls, processColl_abort he hc]

/-- An uncaught extraction exception escapes `get_top_reusable_space_collections`. -/
theorem rank_abort {c : Collection} {e : PyErr}
    (he : statsValue c = .error e) (hc : caught e = false)
    {dpre : List Database}
    (hdpre : ∀ d ∈ dpre, ∀ c2 ∈ d.colls, goodColl c2 = true)
    {cpre : List Collection} (hcpre : ∀ c2 ∈ cpre, goodColl c2 = true)
    (cs nm : String) (cpost : List Collection) (dpost : List Database)
    (n : Int) :
    get_top_reusable_space_collections cs
        (.reachable (dpre ++ ⟨nm, cpre ++ c :: cpost⟩ :: dpost)) n
      = .error e := by
  rw [rank_reachable_def, candidatesOf_abort he hc hdpre hcpre nm cpost dpost]

/-! ## Concrete server states used as witnesses and counterexamples -/

/-- The spec's worked scenario: db A with x: 500 and y: 1200, db B with
z: 900. -/
def demoDbs : List Database :=
  [⟨"A", [⟨"x", .ok (mkStats (.int 500))⟩, ⟨"y", .ok (mkStats (.int 1200))⟩]⟩,
   ⟨"B", [⟨"z", .ok (mkStats (.int 900))⟩]⟩]

/-- A payload whose "wiredTiger" field is present but holds an int, so the
second subscription raises an uncaught `TypeError`. -/
def badShapeDbs : List Database :=
  [⟨"d", [⟨"c", .ok (.obj [("wiredTiger", .obj [("block-manager", .int 7)])])⟩]⟩]

/-- One wrong-shape payload (non-mapping at "wiredTiger") next to one
well-formed collection. -/
def wrongShapeDbs : List Database :=
  [⟨"d", [⟨"bad", .ok (.obj [("wiredTiger", .int 5)])⟩,
          ⟨"good", .ok (mkStats (.int 42))⟩]⟩]

/-- One int-valued and one str-valued reclaimable-space value. -/
def mixedDbs : List Database :=
  [⟨"d", [⟨"c1", .ok (mkStats (.int 5))⟩, ⟨"c2", .ok (mkStats (.str "x"))⟩]⟩]

/-! ## The claims -/

/-- C1 (amended): for every server state in which each collection either
fails with a caught exception class or yields an integer metric through
dict lookups — so that no uncaught exception arises — and every
non-negative `top_n`, `get_top_reusable_space_collections` returns exactly
the enumeration-order candidates stably sorted descending and truncated to
the first `top_n`; hence the length bounds and the `top_n = 0` case. -/
theorem c1_rank_is_sorted_truncated_candidates (cs : String)
    (dbs : List Database) (n : Int) (hwb : wellBehaved dbs = true)
    (hn : 0 ≤ n) :
    get_top_reusable_space_collections cs (.reachable dbs) n
      = .ok (.ranking ((specSortDesc (specCandidates dbs)).take n.toNat))
    ∧ ((specSortDesc (specCandidates dbs)).take n.toNat).length ≤ n.toNat
    ∧ ((specSortDesc (specCandidates dbs)).take n.toNat).length
        ≤ (specCandidates dbs).length
    ∧ (n = 0 → (specSortDesc (specCandidates dbs)).take n.toNat = []) := by
  refine ⟨?_, ?_, ?_, ?_⟩
  · rw [rank_wellBehaved hwb]
    simp [pyTakeSlice, hn]
  · rw [List.length_take]
    exact Nat.min_le_left _ _
  · rw [List.length_take, ← specSortDesc_length (specCandidates dbs)]
    exact Nat.min_le_right _ _
  · intro h0
    subst h0
    simp

/-- Witness for C1 at the spec's worked scenario with `top_n = 2`. -/
theorem c1_rank_is_sorted_truncated_candidates_witness :
    get_top_reusable_space_collections "mongodb://h" (.reachable demoDbs) 2
      = .ok (.ranking [⟨"A", "y", .int 1200⟩, ⟨"B", "z", .int 900⟩]) := by
  have h := (c1_rank_is_sorted_truncated_candidates "mongodb://h" demoDbs 2
    (by rfl) (by decide)).1
  rw [h]
  rfl

/-- Counterexample to C1 as stated: on a state whose only collection has a
wrong-shape payload, the claim's pipeline yields the empty ranking (the
collection is not successfully inspected), but the call instead raises an
uncaught `TypeError`. -/
theorem c1_cex_wrong_shape_aborts :
    get_top_reusable_space_collections "mongodb://h" (.reachable badShapeDbs) 10
      = .error .typeError
    ∧ (specSortDesc (specCandidates badShapeDbs)).take ((10 : Int)).toNat
      = [] :=
  ⟨rfl, rfl⟩

/-- C2: resolving to an unreachable server yields the single formatted
failure string containing the original cause — an `.ok` result (no
exception escapes) that is a failure message, not a (partial) ranking. -/
theorem c2_unreachable_returns_failure_string (cs cause : String) (n : Int) :
    get_top_reusable_space_collections cs (.unreachable cause) n
      = .ok (.failure (connectFailureMessage cause cs))
    ∧ ∃ pre post : String,
        connectFailureMessage cause cs = pre ++ cause ++ post :=
  ⟨rfl, "Failed to connect to MongoDB: ", ", connection_string: " ++ cs, by
    simp [connectFailureMessage, String.append_assoc]⟩

/-- C3 (amended): when the reclaimable-space field is missing at some level
of the nested path (a dict without the key, `KeyError`), the collection is
skipped and the call behaves exactly as if the collection were absent; but
when a non-mapping value sits at an intermediate level of the path (wrong
shape), the lookup raises `TypeError`, which the per-collection handler
does not catch, and the whole call aborts with that exception. -/
theorem c3_missing_key_skips_but_wrong_shape_aborts :
    (∀ (cs nm : String) (dpre dpost : List Database)
        (cpre cpost : List Collection) (w : Collection) (n : Int),
      statsValue w = .error .keyError →
      get_top_reusable_space_collections cs
          (.reachable (dpre ++ ⟨nm, cpre ++ w :: cpost⟩ :: dpost)) n
        = get_top_reusable_space_collections cs
          (.reachable (dpre ++ ⟨nm, cpre ++ cpost⟩ :: dpost)) n)
    ∧ (∀ (cs nm : String) (dpre dpost : List Database)
        (cpre cpost : List Collection) (c : Collection) (n : Int),
      (∀ d ∈ dpre, ∀ c2 ∈ d.colls, goodColl c2 = true) →
      (∀ c2 ∈ cpre, goodColl c2 = true) →
      statsValue c = .error .typeError →
      get_top_reusable_space_collections cs
          (.reachable (dpre ++ ⟨nm, cpre ++ c :: cpost⟩ :: dpost)) n
        = .error .typeError) := by
  constructor
  · intro cs nm dpre dpost cpre cpost w n hw
    exact rank_skip hw rfl cs nm dpre dpost cpre cpost n
  · intro cs nm dpre dpost cpre cpost c n hdpre hcpre hc
    exact rank_abort hc rfl hdpre hcpre cs nm cpost dpost n

/-- Witness for C3: a collection with an empty stats payload (missing
"wiredTiger" key) is skipped without changing the other results, and a
collection whose "wiredTiger" field is an int aborts the call. -/
theorem c3_missing_key_skips_but_wrong_shape_aborts_witness :
    get_top_reusable_space_collections "mongodb://h"
        (.reachable [⟨"A", [⟨"m", .ok (.obj [])⟩,
          ⟨"y", .ok (mkStats (.int 1200))⟩]⟩]) 10
      = get_top_reusable_space_collections "mongodb://h"
        (.reachable [⟨"A", [⟨"y", .ok (mkStats (.int 1200))⟩]⟩]) 10
    ∧ get_top_reusable_space_collections "mongodb://h"
        (.reachable [⟨"A", [⟨"bad", .ok (.obj [("wiredTiger", .str "v")])⟩]⟩]) 10
      = .error .typeError :=
  ⟨c3_missing_key_skips_but_wrong_shape_aborts.1 "mongodb://h" "A" [] [] []
      [⟨"y", .ok (mkStats (.int 1200))⟩] ⟨"m", .ok (.obj [])⟩ 10 rfl,
   c3_missing_key_skips_but_wrong_shape_aborts.2 "mongodb://h" "A" [] [] []
      [] ⟨"bad", .ok (.obj [("wiredTiger", .str "v")])⟩ 10
      (by intro d hd; simp at hd) (by intro c2 hc2; simp at hc2) rfl⟩

/-- Counterexample to C3 as stated: a payload whose "wiredTiger" field is
an int (wrong shape) sits next to a well-formed collection; the claim says
the bad collection is skipped and the remaining one is ranked, but the call
aborts with an uncaught `TypeError`. -/
theorem c3_cex_wrong_shape_not_skipped :
    get_top_reusable_space_collections "mongodb://h"
        (.reachable wrongShapeDbs) 10
      = .error .typeError
    ∧ specCandidates wrongShapeDbs = [⟨"d", "good", .int 42⟩] :=
  ⟨rfl, rfl⟩

/-- C4: a collection whose stats call raises `OperationFailure` contributes
nothing: the call's result is identical to the result on the same server
state with that collection absent, so it appears nowhere and changes
neither the rank nor the count of any other entry. -/
theorem c4_failed_stats_collection_excluded (cs nm : String)
    (dpre dpost : List Database) (cpre cpost : List Collection)
    (w : Collection) (n : Int) (hw : w.stats = .error .operationFailure) :
    get_top_reusable_space_collections cs
        (.reachable (dpre ++ ⟨nm, cpre ++ w :: cpost⟩ :: dpost)) n
      = get_top_reusable_space_collections cs
        (.reachable (dpre ++ ⟨nm, cpre ++ cpost⟩ :: dpost)) n := by
  have he : statsValue w = .error .operationFailure := by
    rw [statsValue, hw]
  exact rank_skip he rfl cs nm dpre dpost cpre cpost n

/-- Witness for C4: a permission-denied collection in the middle of db A
leaves the ranking of the others untouched. -/
theorem c4_failed_stats_collection_excluded_witness :
    get_top_reusable_space_collections "mongodb://h"
        (.reachable [⟨"A", [⟨"x", .ok (mkStats (.int 500))⟩,
          ⟨"w", .error .operationFailure⟩,
          ⟨"y", .ok (mkStats (.int 1200))⟩]⟩]) 10
      = get_top_reusable_space_collections "mongodb://h"
        (.reachable [⟨"A", [⟨"x", .ok (mkStats (.int 500))⟩,
          ⟨"y", .ok (mkStats (.int 1200))⟩]⟩]) 10 :=
  c4_failed_stats_collection_excluded "mongodb://h" "A" [] []
    [⟨"x", .ok (mkStats (.int 500))⟩] [⟨"y", .ok (mkStats (.int 1200))⟩]
    ⟨"w", .error .operationFailure⟩ 10 rfl

/-- C5: every successful ranking is descending — each adjacent pair has
`reusable_bytes` at least the next one's — and stable: for every key value
the entries carrying it appear in the same relative order as in the
enumeration-order candidate list (their subsequence of the result is a
prefix of their subsequence of the candidates). -/
theorem c5_result_descending_and_stable (cs : String) (dbs : List Database)
    (n : Int) (c l : List Entry) (hc : candidatesOf dbs = .ok c)
    (hint : AllInt c)
    (hf : get_top_reusable_space_collections cs (.reachable dbs) n
            = .ok (.ranking l)) :
    List.Chain' (fun a b => keyI b ≤ keyI a) l
    ∧ ∀ k : Int, l.filter (keyIs k) <+: c.filter (keyIs k) := by
  have hrun : get_top_reusable_space_collections cs (.reachable dbs) n
      = .ok (.ranking (pyTakeSlice (specSortDesc c) n)) := by
    rw [rank_reachable_def, hc]
    show (match sortDesc c with
          | .error e => (.error e : Except PyErr RankResult)
          | .ok sorted => .ok (.ranking (pyTakeSlice sorted n))) = _
    rw [sortDesc_spec hint]
  rw [hrun] at hf
  have hl : l = pyTakeSlice (specSortDesc c) n := by
    injection hf with h1
    injection h1 with h2
    exact h2.symm
  obtain ⟨m, hm⟩ := pyTakeSlice_is_take (specSortDesc c) n
  subst hl
  rw [hm]
  constructor
  · exact (List.Pairwise.chain' (specSortDesc_sorted hint)).take m
  · intro k
    have h1 : (specSortDesc c).take m <+: specSortDesc c :=
      List.take_prefix m (specSortDesc c)
    have h2 := h1.filter (keyIs k)
    rw [specSortDesc_filter hint k] at h2
    exact h2

/-- Witness for C5 at the spec's worked scenario. -/
theorem c5_result_descending_and_stable_witness :
    List.Chain' (fun a b => keyI b ≤ keyI a)
      [⟨"A", "y", .int 1200⟩, ⟨"B", "z", .int 900⟩, ⟨"A", "x", .int 500⟩]
    ∧ List.filter (keyIs 900)
        [⟨"A", "y", .int 1200⟩, ⟨"B", "z", .int 900⟩, ⟨"A", "x", .int 500⟩]
      <+: List.filter (keyIs 900)
        [⟨"A", "x", .int 500⟩, ⟨"A", "y", .int 1200⟩, ⟨"B", "z", .int 900⟩] := by
  have h := c5_result_descending_and_stable "mongodb://h" demoDbs 10
    [⟨"A", "x", .int 500⟩, ⟨"A", "y", .int 1200⟩, ⟨"B", "z", .int 900⟩]
    [⟨"A", "y", .int 1200⟩, ⟨"B", "z", .int 900⟩, ⟨"A", "x", .int 500⟩]
    rfl
    (by
      intro e he
      simp [List.mem_cons] at he
      rcases he with rfl | rfl | rfl
      · exact ⟨500, rfl⟩
      · exact ⟨1200, rfl⟩
      · exact ⟨900, rfl⟩)
    rfl
  exact ⟨h.1, h.2 900⟩

/-- C6 (amended): negative reclaimable-space values are accepted as-is into
the candidate set and sorted numerically with no clamping, and the call
succeeds; a non-numeric value is also accepted as-is into the candidate
set, but instead of succeeding the call raises an uncaught `TypeError` when
the sort compares it with a numeric candidate. -/
theorem c6_negative_sorted_nonnumeric_type_error :
    (∀ (cs d c1 c2 : String) (k1 k2 : Int), k1 < k2 →
      get_top_reusable_space_collections cs
          (.reachable [⟨d, [⟨c1, .ok (mkStats (.int k1))⟩,
            ⟨c2, .ok (mkStats (.int k2))⟩]⟩]) 10
        = .ok (.ranking [⟨d, c2, .int k2⟩, ⟨d, c1, .int k1⟩]))
    ∧ (∀ (cs d c1 c2 s : String) (k n : Int),
      get_top_reusable_space_collections cs
          (.reachable [⟨d, [⟨c1, .ok (mkStats (.int k))⟩,
            ⟨c2, .ok (mkStats (.str s))⟩]⟩]) n
        = .error .typeError) := by
  constructor
  · intro cs d c1 c2 k1 k2 h
    rw [rank_reachable_def]
    show (match sortDesc [⟨d, c1, .int k1⟩, ⟨d, c2, .int k2⟩] with
          | .error e => (.error e : Except PyErr RankResult)
          | .ok sorted => .ok (.ranking (pyTakeSlice sorted 10))) = _
    have hs : sortDesc [⟨d, c1, .int k1⟩, ⟨d, c2, .int k2⟩]
        = .ok [⟨d, c2, .int k2⟩, ⟨d, c1, .int k1⟩] := by
      simp [sortDesc, sortDescAux, insertDesc, pyLt, h]
    rw [hs]
    rfl
  · intro cs d c1 c2 s k n
    rw [rank_reachable_def]
    show (match sortDesc [⟨d, c1, .int k⟩, ⟨d, c2, .str s⟩] with
          | .error e => (.error e : Except PyErr RankResult)
          | .ok sorted => .ok (.ranking (pyTakeSlice sorted n))) = _
    have hs : sortDesc [⟨d, c1, .int k⟩, ⟨d, c2, .str s⟩]
        = .error .typeError := by
      simp [sortDesc, sortDescAux, insertDesc, pyLt]
    rw [hs]

/-- Witness for C6: negative values -5 and -1 are ranked unclamped, and an
int next to a str aborts with `TypeError`. -/
theorem c6_negative_sorted_nonnumeric_type_error_witness :
    get_top_reusable_space_collections "mongodb://h"
        (.reachable [⟨"d", [⟨"a", .ok (mkStats (.int (-5)))⟩,
          ⟨"b", .ok (mkStats (.int (-1)))⟩]⟩]) 10
      = .ok (.ranking [⟨"d", "b", .int (-1)⟩, ⟨"d", "a", .int (-5)⟩])
    ∧ get_top_reusable_space_collections "mongodb://h"
        (.reachable [⟨"d", [⟨"e", .ok (mkStats (.int 7))⟩,
          ⟨"f", .ok (mkStats (.str "oops"))⟩]⟩]) 3
      = .error .typeError :=
  ⟨c6_negative_sorted_nonnumeric_type_error.1 "mongodb://h" "d" "a" "b"
      (-5) (-1) (by decide),
   c6_negative_sorted_nonnumeric_type_error.2 "mongodb://h" "d" "e" "f"
      "oops" 7 3⟩

/-- Counterexample to C6 as stated: with one non-numeric value next to a
numeric one the call does not succeed — it raises `TypeError`. -/
theorem c6_cex_nonnumeric_fails :
    get_top_reusable_space_collections "mongodb://h" (.reachable mixedDbs) 10
      = .error .typeError := rfl

/-- A successfully loaded configuration value is always truthy: a cached
connection string is nonempty by the loader's guard, and the cached dict is
a five-key (hence truthy) dict. -/
theorem loadConfigFromEnv_truthy {env : Env} {v : ConfigVal}
    (h : loadConfigFromEnv env = .ok v) : truthyConfig v = true := by
  rw [loadConfigFromEnv] at h
  by_cases h1 : truthyStr env.connection_string = true
  · rw [if_pos h1] at h
    injection h with h2
    subst h2
    cases hcs : env.connection_string with
    | none => rw [hcs] at h1; simp [truthyStr] at h1
    | some s =>
        rw [hcs] at h1
        simpa [truthyConfig, truthyStr] using h1
  · rw [if_neg h1] at h
    by_cases h2 : (truthyStr env.host && truthyStr env.port &&
        truthyStr env.user && truthyStr env.password &&
        truthyStr env.database) = true
    · rw [if_pos h2] at h
      injection h with h3
      subst h3
      rfl
    · rw [if_neg h2] at h
      exact absurd h (by simp)

/-- C7: after the first successful call populates the singleton, every
subsequent call — under any environment, changed or not — returns the
identical value and leaves the cache unchanged. -/
theorem c7_config_singleton_idempotent (env1 env2 : Env) (c : ConfigVal)
    (g1 : Option ConfigVal)
    (h : get_mongodb_connection_configuration env1 none = .ok (c, g1)) :
    get_mongodb_connection_configuration env2 g1 = .ok (c, g1) := by
  rw [get_mongodb_connection_configuration] at h
  cases hl : loadConfigFromEnv env1 with
  | error e => rw [hl] at h; exact absurd h (by simp)
  | ok v =>
      rw [hl] at h
      simp at h
      obtain ⟨hv, hg⟩ := h
      subst hv
      subst hg
      simp [get_mongodb_connection_configuration, loadConfigFromEnv_truthy hl]

/-- Witness for C7: a first call caches the connection string; a second
call under a changed environment (which would even load a different,
dict-shaped configuration) returns the cached value. -/
theorem c7_config_singleton_idempotent_witness :
    get_mongodb_connection_configuration
        ⟨some "", some "h2", some "27017", some "u", some "p", some "db"⟩
        (some (.connStr "mongodb://a"))
      = .ok (.connStr "mongodb://a", some (.connStr "mongodb://a")) :=
  c7_config_singleton_idempotent
    ⟨some "mongodb://a", none, none, none, none, none⟩
    ⟨some "", some "h2", some "27017", some "u", some "p", some "db"⟩
    (.connStr "mongodb://a") (some (.connStr "mongodb://a")) rfl

/-- C8: a negative `top_n` neither errors nor empties the result by
default: the slice `results[:top_n]` keeps the sorted list minus its last
`|top_n|` entries, so the length is `max(0, n - |top_n|)` (truncated
subtraction). -/
theorem c8_negative_top_n_drops_tail (cs : String) (dbs : List Database)
    (n : Int) (c s : List Entry) (hc : candidatesOf dbs = .ok c)
    (hs : sortDesc c = .ok s) (hn : n < 0) :
    get_top_reusable_space_collections cs (.reachable dbs) n
      = .ok (.ranking (s.take (s.length - n.natAbs)))
    ∧ (s.take (s.length - n.natAbs)).length = c.length - n.natAbs := by
  constructor
  · rw [rank_reachable_def, hc]
    show (match sortDesc c with
          | .error e => (.error e : Except PyErr RankResult)
          | .ok sorted => .ok (.ranking (pyTakeSlice sorted n))) = _
    rw [hs]
    simp [pyTakeSlice, show ¬ (0 : Int) ≤ n by omega]
  · rw [List.length_take, Nat.min_eq_left (Nat.sub_le _ _),
      sortDesc_length hs]

/-- Witness for C8: on the worked scenario with `top_n = -1`, the call
returns the sorted candidates minus the last entry. -/
theorem c8_negative_top_n_drops_tail_witness :
    get_top_reusable_space_collections "mongodb://h" (.reachable demoDbs) (-1)
      = .ok (.ranking [⟨"A", "y", .int 1200⟩, ⟨"B", "z", .int 900⟩]) := by
  have h := (c8_negative_top_n_drops_tail "mongodb://h" demoDbs (-1)
    [⟨"A", "x", .int 500⟩, ⟨"A", "y", .int 1200⟩, ⟨"B", "z", .int 900⟩]
    [⟨"A", "y", .int 1200⟩, ⟨"B", "z", .int 900⟩, ⟨"A", "x", .int 500⟩]
    rfl rfl (by decide)).1
  rw [h]
  rfl

/-- C9: calling `create_db_instance` with `charge_type = "PrePaid"` and a
falsy `period` raises `TypeError` (the guard raises a plain string, which
Python 3 rejects) before any cloud API request is issued — the result is
the same for every possible API round-trip, and no failure string is
returned. -/
theorem c9_prepaid_without_period_type_error
    (region_id zone_id engine_version db_instance_class : String)
    (db_instance_storage : Int)
    (account_password charge_type vpc_id vswitch_id storage_type : String)
    (security_ip_list : Option String) (period : Option Int)
    (replication_factor : Option Int)
    (api : CreateDBInstanceRequest → Except String (List (String × String)))
    (hcharge : charge_type = "PrePaid") (hperiod : truthyInt period = false) :
    create_db_instance region_id zone_id engine_version db_instance_class
        db_instance_storage account_password charge_type vpc_id vswitch_id
        storage_type security_ip_list period replication_factor api
      = .error .typeError := by
  subst hcharge
  simp [create_db_instance, hperiod]

/-- Witness for C9 at a concrete PrePaid request without a period. -/
theorem c9_prepaid_without_period_type_error_witness :
    create_db_instance "cn-hangzhou" "cn-hangzhou-b" "7.0"
        "mdb.shard.2x.xlarge.d" 100 "pw" "PrePaid" "vpc-1" "vsw-1"
        "cloud_essd1" none none (some 3) (fun _ => .ok [("DBInstanceId", "dds-1")])
      = .error .typeError :=
  c9_prepaid_without_period_type_error "cn-hangzhou" "cn-hangzhou-b" "7.0"
    "mdb.shard.2x.xlarge.d" 100 "pw" "PrePaid" "vpc-1" "vsw-1" "cloud_essd1"
    none none (some 3) (fun _ => .ok [("DBInstanceId", "dds-1")]) rfl rfl

/-- C10: every successful result of `get_audit_log_from_sls` satisfies
`count = len(logs)`. -/
theorem c10_audit_count_matches_logs (region_id from_ to_ query : String)
    (offset : Int) (parseTimestamp : String → Option Int)
    (getLogs : String → String → GetLogsRequest → Except String (List String))
    (count : Nat) (logs : List String)
    (h : get_audit_log_from_sls region_id from_ to_ query offset
          parseTimestamp getLogs = .ok (.success count logs)) :
    count = logs.length := by
  rw [get_audit_log_from_sls] at h
  cases h1 : parseTimestamp from_ with
  | none => rw [h1] at h; exact absurd h (by simp)
  | some t1 =>
      cases h2 : parseTimestamp to_ with
      | none => rw [h1, h2] at h; exact absurd h (by simp)
      | some t2 =>
          rw [h1, h2] at h
          simp only [] at h
          cases h3 : region2project.lookup region_id with
          | none =>
              rw [h3] at h
              simp at h
          | some project =>
              rw [h3] at h
              cases h4 : getLogs project "mongo_audit_log"
                  ⟨t1, t2, query, offset, 50⟩ with
              | error e => simp [h4] at h
              | ok ls =>
                  simp [h4] at h
                  obtain ⟨hcount, hlogs⟩ := h
                  subst hlogs
                  exact hcount.symm

/-- Witness for C10 at a concrete successful round-trip of two log lines. -/
theorem c10_audit_count_matches_logs_witness :
    get_audit_log_from_sls "cn-hangzhou" "2025-04-08 13:00:00"
        "2025-04-08 14:00:00" "instanceid: x" 0 (fun _ => some 1744088400)
        (fun _ _ _ => .ok ["log1", "log2"])
      = .ok (.success 2 ["log1", "log2"])
    ∧ (2 : Nat) = (["log1", "log2"] : List String).length :=
  ⟨rfl, c10_audit_count_matches_logs "cn-hangzhou" "2025-04-08 13:00:00"
      "2025-04-08 14:00:00" "instanceid: x" 0 (fun _ => some 1744088400)
      (fun _ _ _ => .ok ["log1", "log2"]) 2 ["log1", "log2"] rfl⟩

end Mongo
